import Mathlib

/-!
Verification development for the FPL transfer/chip planning engine
(`transfer_optimizer.py`, `models.py`, `fpl_api.py`).

Python floats are modelled as exact rationals (`ℚ`), Python ints as `ℕ`/`ℤ`,
pandas DataFrame rows as Lean structures, dicts as association lists or
functions. Division follows Lean's convention `x / 0 = 0`; the sources never
divide by zero on the paths the theorems talk about (denominators are
`max (…, 1)`-guarded or positive constants in the source).
-/

/-- One row of `players_df`, with exactly the columns the optimizer reads.
`ict_index` goes through `pd.to_numeric(…, errors="coerce")` in the source and
may be NaN, hence `Option ℚ`. -/
structure PlayerRow where
  id : ℕ
  team : ℕ
  element_type : ℕ
  web_name : String
  value : ℚ
  form_float : ℚ
  points_per_game : ℚ
  minutes : ℚ
  bonus : ℚ
  total_points : ℚ
  clean_sheets : ℚ
  starts : ℚ
  goals_scored : ℚ
  assists : ℚ
  ict_index : Option ℚ
  deriving DecidableEq, Repr

/-- Entry of the `team_difficulty` dict built by `FPLApiClient.get_team_difficulty`:
the per-fixture difficulty list over the next six gameweeks for one team. -/
structure TeamDiffInfo where
  difficulties : List ℤ
  deriving DecidableEq, Repr

/-- A transfer candidate dict as built in `_solve_transfer_optimization`
(keys `out_id`, `in_id`, `out_name`, `in_name`, `cost_change`,
`points_improvement`, `value_ratio`; the last is named `value_per_cost` here). -/
structure Candidate where
  out_id : ℕ
  in_id : ℕ
  out_name : String
  in_name : String
  cost_change : ℚ
  points_improvement : ℚ
  value_per_cost : ℚ
  deriving DecidableEq, Repr

/-- Embedding of `models.TransferRecommendation` (the fields produced by the optimizer). -/
structure TransferRecommendation where
  player_out_id : ℕ
  player_in_id : ℕ
  player_out_name : String
  player_in_name : String
  cost_change : ℚ
  points_potential : ℚ
  confidence : ℚ
  reason : String
  priority : ℕ
  deriving DecidableEq, Repr

/-- Embedding of `models.ChipType`. -/
inductive ChipType where
  | wildcard
  | free_hit
  | bench_boost
  | triple_captain
  deriving DecidableEq, Repr

/-- Embedding of `models.ChipStrategy`. -/
structure ChipStrategy where
  chip_type : ChipType
  planned_gameweek : ℕ
  priority : ℕ
  reason : String
  locked : Bool
  deriving DecidableEq, Repr

/-- Embedding of `UserStrategy.chips_remaining`: `create_chip_strategy` accepts either a
dict (`.get(chip, 0)`) or, via its `AttributeError` fallback, the old-style
list (`2 if chip in list else 0`). -/
inductive ChipsRemaining where
  | dict (f : ChipType → ℕ)
  | oldList (l : List ChipType)

/-- Lookup of a chip's remaining count, matching the `try/except AttributeError`
pattern in `create_chip_strategy`. -/
def chipsGet : ChipsRemaining → ChipType → ℕ
  | .dict f, t => f t
  | .oldList l, t => if t ∈ l then 2 else 0

/-- Embedding of `models.UserStrategy`, restricted to the fields the optimizer and chip
planner read or write (`free_transfers`, `bank`, `chips_remaining`,
`planned_chips`); the remaining dataclass fields are never touched by the
embedded code. -/
structure UserStrategy where
  free_transfers : ℕ
  bank : ℚ
  chips_remaining : ChipsRemaining
  planned_chips : List ChipStrategy

/-! ## TransferOptimizer._solve_transfer_optimization: greedy selection -/

/-- Mutable state of the greedy selection loop in
`_solve_transfer_optimization` (lines 239–242): the accepted list, the two
used-id sets, and the remaining budget. -/
structure SelState where
  selected : List Candidate
  used_players_out : List ℕ
  used_players_in : List ℕ
  remaining_budget : ℚ

/-- One iteration of the greedy loop (lines 244–262). The `break` on reaching
`max_transfers` is modelled as the identity, which is equivalent because the
accepted count never decreases. -/
def selStep (free_transfers max_transfers : ℕ) (allow_hits : Bool)
    (st : SelState) (c : Candidate) : SelState :=
  if max_transfers ≤ st.selected.length then st
  else if c.out_id ∈ st.used_players_out ∨ c.in_id ∈ st.used_players_in ∨
      st.remaining_budget < c.cost_change then st
  else if free_transfers ≤ st.selected.length ∧
      (allow_hits = false ∨ c.points_improvement < 4) then st
  else
    { selected := st.selected ++ [c]
      used_players_out := st.used_players_out ++ [c.out_id]
      used_players_in := st.used_players_in ++ [c.in_id]
      remaining_budget := st.remaining_budget - c.cost_change }

/-- The greedy selection (lines 239–262) run over a candidate list: start from
the empty selection with `remaining_budget = user_strategy.bank` and fold the
loop body over the candidates. -/
def selectGreedy (cands : List Candidate) (bank : ℚ)
    (free_transfers max_transfers : ℕ) (allow_hits : Bool) : List Candidate :=
  (cands.foldl (selStep free_transfers max_transfers allow_hits)
    ⟨[], [], [], bank⟩).selected

/-- Generic foldl invariant preservation. -/
theorem foldl_preserves {α σ : Type} (P : σ → Prop) (step : σ → α → σ)
    (l : List α) (s : σ) (hstep : ∀ s a, a ∈ l → P s → P (step s a))
    (hs : P s) : P (l.foldl step s) := by
  induction l generalizing s with
  | nil => exact hs
  | cons a t ih =>
      exact ih _ (fun s b hb hP => hstep s b (List.mem_cons_of_mem a hb) hP)
        (hstep s a (List.mem_cons_self a t) hs)

/-- In `selStep`, either the candidate is rejected (state unchanged) or it is
accepted, in which case all three guard conditions were passed. -/
theorem selStep_cases (ft mt : ℕ) (ah : Bool) (st : SelState) (c : Candidate) :
    selStep ft mt ah st c = st ∨
    (selStep ft mt ah st c =
        { selected := st.selected ++ [c]
          used_players_out := st.used_players_out ++ [c.out_id]
          used_players_in := st.used_players_in ++ [c.in_id]
          remaining_budget := st.remaining_budget - c.cost_change } ∧
      c.out_id ∉ st.used_players_out ∧ c.in_id ∉ st.used_players_in ∧
      c.cost_change ≤ st.remaining_budget ∧ st.selected.length < mt) := by
  unfold selStep
  split_ifs with h1 h2 h3
  · exact Or.inl rfl
  · exact Or.inl rfl
  · exact Or.inl rfl
  · push_neg at h1 h2
    exact Or.inr ⟨rfl, h2.1, h2.2.1, h2.2.2, h1⟩

/-- C1 helper: the loop invariant tying the remaining budget to the sum of the
accepted cost deltas. -/
def budgetInv (bank : ℚ) (st : SelState) : Prop :=
  bank = st.remaining_budget + (st.selected.map Candidate.cost_change).sum ∧
  0 ≤ st.remaining_budget

theorem selStep_budgetInv (bank : ℚ) (ft mt : ℕ) (ah : Bool)
    (st : SelState) (c : Candidate) (h : budgetInv bank st) :
    budgetInv bank (selStep ft mt ah st c) := by
  rcases selStep_cases ft mt ah st c with heq | ⟨heq, _, _, hcost, _⟩
  · rwa [heq]
  · rw [heq]
    obtain ⟨hsum, hpos⟩ := h
    constructor
    · simp only [List.map_append, List.map_cons, List.map_nil, List.sum_append,
        List.sum_cons, List.sum_nil]
      linarith
    · simpa using hcost

/-- C1 (confirmed). **Budget invariant**: for every candidate list and every
budget state with non-negative spare funds `bank`, the transfers accepted by
the greedy selection of `_solve_transfer_optimization` have cost deltas summing
to at most `bank`, so the remaining budget never goes negative after the
committed plan. -/
theorem budget_invariant_of_selectGreedy
    (cands : List Candidate) (bank : ℚ) (ft mt : ℕ) (ah : Bool)
    (hbank : 0 ≤ bank) :
    ((selectGreedy cands bank ft mt ah).map Candidate.cost_change).sum ≤ bank := by
  have h : budgetInv bank (cands.foldl (selStep ft mt ah) ⟨[], [], [], bank⟩) := by
    apply foldl_preserves (budgetInv bank)
    · exact fun s a _ hP => selStep_budgetInv bank ft mt ah s a hP
    · exact ⟨by simp, hbank⟩
  obtain ⟨hsum, hpos⟩ := h
  unfold selectGreedy
  linarith

/-- Witness for C1 at a concrete candidate list and bank. -/
theorem budget_invariant_of_selectGreedy_witness :
    ((selectGreedy
        [⟨1, 2, "a", "b", 1/2, 3, 6⟩, ⟨3, 4, "c", "d", 2, 5, 5/2⟩]
        1 2 2 true).map Candidate.cost_change).sum ≤ 1 :=
  budget_invariant_of_selectGreedy _ 1 2 2 true (by norm_num)

/-- C2 helper: the loop invariant for no-double-booking — accepted outgoing and
incoming ids are duplicate-free and recorded in the respective used-id sets. -/
def bookingInv (st : SelState) : Prop :=
  (st.selected.map Candidate.out_id).Nodup ∧
  (st.selected.map Candidate.in_id).Nodup ∧
  (∀ x ∈ st.selected.map Candidate.out_id, x ∈ st.used_players_out) ∧
  (∀ x ∈ st.selected.map Candidate.in_id, x ∈ st.used_players_in)

theorem selStep_bookingInv (ft mt : ℕ) (ah : Bool)
    (st : SelState) (c : Candidate) (h : bookingInv st) :
    bookingInv (selStep ft mt ah st c) := by
  rcases selStep_cases ft mt ah st c with heq | ⟨heq, hout, hin, _, _⟩
  · rwa [heq]
  · rw [heq]
    obtain ⟨hno, hni, hmo, hmi⟩ := h
    refine ⟨?_, ?_, ?_, ?_⟩
    · simp only [List.map_append, List.map_cons, List.map_nil,
        List.nodup_append, List.nodup_cons, List.nodup_nil]
      exact ⟨hno, ⟨by simp, trivial⟩,
        by
          intro x hx hx'
          simp only [List.mem_singleton] at hx'
          exact hout (hx' ▸ hmo x hx)⟩
    · simp only [List.map_append, List.map_cons, List.map_nil,
        List.nodup_append, List.nodup_cons, List.nodup_nil]
      exact ⟨hni, ⟨by simp, trivial⟩,
        by
          intro x hx hx'
          simp only [List.mem_singleton] at hx'
          exact hin (hx' ▸ hmi x hx)⟩
    · intro x hx
      simp only [List.map_append, List.map_cons, List.map_nil,
        List.mem_append, List.mem_singleton] at hx ⊢
      rcases hx with hx | hx
      · exact Or.inl (hmo x hx)
      · exact Or.inr hx
    · intro x hx
      simp only [List.map_append, List.map_cons, List.map_nil,
        List.mem_append, List.mem_singleton] at hx ⊢
      rcases hx with hx | hx
      · exact Or.inl (hmi x hx)
      · exact Or.inr hx

/-- C2 (confirmed). **No double-booking**: in the transfer set accepted by the
greedy selection, no roster member id appears as outgoing in more than one
accepted candidate and no pool member id appears as incoming in more than one
accepted candidate. -/
theorem no_double_booking_of_selectGreedy
    (cands : List Candidate) (bank : ℚ) (ft mt : ℕ) (ah : Bool) :
    ((selectGreedy cands bank ft mt ah).map Candidate.out_id).Nodup ∧
    ((selectGreedy cands bank ft mt ah).map Candidate.in_id).Nodup := by
  have h : bookingInv (cands.foldl (selStep ft mt ah) ⟨[], [], [], bank⟩) := by
    apply foldl_preserves bookingInv
    · exact fun s a _ hP => selStep_bookingInv ft mt ah s a hP
    · exact ⟨by simp, by simp, by simp, by simp⟩
  exact ⟨h.1, h.2.1⟩

/-! ## Hit-cost rule (lines 254–257) -/

/-- C5 counterexample. A candidate whose projected gain is exactly 4 points —
which does not *exceed* the 4-point hit threshold — is nevertheless accepted
beyond the free-transfer allotment (`free_transfers = 0`, `allow_hits = true`),
because the source rejects only when `points_improvement < 4`. -/
theorem hit_threshold_counterexample :
    selectGreedy [⟨1, 2, "a", "b", 1, 4, 4⟩] 10 0 1 true =
      [⟨1, 2, "a", "b", 1, 4, 4⟩] ∧
    ¬ (4 < (Candidate.mk 1 2 "a" "b" 1 4 4).points_improvement) := by
  constructor
  · decide
  · norm_num

/-- C5 (amended). During greedy selection, for a candidate that passes the
double-booking and budget checks while the cap is not yet reached: once the
number of already-accepted transfers is at or beyond the free-transfer
allotment, the candidate is accepted if and only if `allow_hits` is true and
its projected gain is **at least** (not strictly above) the 4-point hit
threshold; below the allotment no hit-cost condition is applied. -/
theorem hit_threshold_amended (ft mt : ℕ) (ah : Bool) (st : SelState)
    (c : Candidate)
    (hmt : st.selected.length < mt)
    (hout : c.out_id ∉ st.used_players_out)
    (hin : c.in_id ∉ st.used_players_in)
    (hcost : c.cost_change ≤ st.remaining_budget) :
    (ft ≤ st.selected.length →
      ((selStep ft mt ah st c).selected = st.selected ++ [c] ↔
        ah = true ∧ 4 ≤ c.points_improvement)) ∧
    (st.selected.length < ft →
      (selStep ft mt ah st c).selected = st.selected ++ [c]) := by
  have hne : st.selected ≠ st.selected ++ [c] := by
    intro h
    simpa using congrArg List.length h
  unfold selStep
  rw [if_neg (not_le.mpr hmt),
    if_neg (by
      push_neg
      exact ⟨hout, hin, hcost⟩)]
  constructor
  · intro hft
    split_ifs with h3
    · constructor
      · intro h
        exact absurd h hne
      · rintro ⟨hah, hge⟩
        rcases h3.2 with hah' | hgain
        · rw [hah] at hah'
          cases hah'
        · linarith
    · push_neg at h3
      obtain ⟨hah, hgain⟩ := h3 hft
      refine ⟨fun _ => ⟨?_, hgain⟩, fun _ => rfl⟩
      cases ah with
      | false => exact absurd rfl hah
      | true => rfl
  · intro hlt
    rw [if_neg (by
      rintro ⟨hge, -⟩
      exact absurd hge (not_le.mpr hlt))]

/-- Witness for the amended C5 at a concrete state and candidate. -/
theorem hit_threshold_amended_witness :
    (0 ≤ (SelState.mk [] [] [] 10).selected.length →
      ((selStep 0 1 true ⟨[], [], [], 10⟩ ⟨1, 2, "a", "b", 1, 5, 5⟩).selected =
          (SelState.mk [] [] [] 10).selected ++ [⟨1, 2, "a", "b", 1, 5, 5⟩] ↔
        true = true ∧ 4 ≤ (Candidate.mk 1 2 "a" "b" 1 5 5).points_improvement)) ∧
    ((SelState.mk [] [] [] 10).selected.length < 0 →
      (selStep 0 1 true ⟨[], [], [], 10⟩ ⟨1, 2, "a", "b", 1, 5, 5⟩).selected =
        (SelState.mk [] [] [] 10).selected ++ [⟨1, 2, "a", "b", 1, 5, 5⟩]) :=
  hit_threshold_amended 0 1 true ⟨[], [], [], 10⟩ ⟨1, 2, "a", "b", 1, 5, 5⟩
    (by decide) (by simp) (by simp) (by norm_num)

/-! ## Sorting, candidate generation and the full selection pipeline -/

/-- Descending order on the value ratio: `a` may precede `b` when
`b.value_per_cost ≤ a.value_per_cost`. (`value_per_cost` is the
`value_ratio` key of the source's candidate dicts.) -/
def ratioGE (a b : Candidate) : Prop :=
  b.value_per_cost ≤ a.value_per_cost

instance : DecidableRel ratioGE :=
  fun a b =>
    inferInstanceAs (Decidable (b.value_per_cost ≤ a.value_per_cost))

instance : IsTotal Candidate ratioGE :=
  ⟨fun a b => le_total b.value_per_cost a.value_per_cost⟩

instance : IsTrans Candidate ratioGE :=
  ⟨fun _ _ _ hab hbc => le_trans hbc hab⟩

/-- Embedding of `transfer_candidates.sort(key=lambda x: x["value_ratio"], reverse=True)`
(line 236): a stable descending sort by value ratio; insertion sort has the
same stable semantics as Python's sort for this comparison. -/
def sortCandidates (cands : List Candidate) : List Candidate :=
  cands.insertionSort ratioGE

/-- Candidate enumeration of `_solve_transfer_optimization` (lines 200–233):
for each current roster member, each same-position pool member whose price
delta fits the bank and whose projection improvement is positive yields a
candidate. -/
def gen_candidates (current_team_df available_players : List PlayerRow)
    (proj : ℕ → ℚ) (bank : ℚ) : List Candidate :=
  current_team_df.flatMap fun cur =>
    (available_players.filter fun p =>
        p.element_type == cur.element_type).filterMap fun cand =>
      let cost_diff := cand.value - cur.value
      if cost_diff ≤ bank then
        let gain := proj cand.id - proj cur.id
        if 0 < gain then
          some { out_id := cur.id
                 in_id := cand.id
                 out_name := cur.web_name
                 in_name := cand.web_name
                 cost_change := cost_diff
                 points_improvement := gain
                 value_per_cost := gain / max |cost_diff| (0.1 : ℚ) }
        else none
      else none

/-- Decimal rendering of the projected gain used in the recommendation's
`reason` f-string (`{improvement:.1f}`), modelled over exact rationals with
rounding to the nearest tenth standing in for binary-float formatting. -/
def fmt1 (q : ℚ) : String :=
  let n : ℤ := round (q * 10)
  let s := toString (n.natAbs / 10) ++ "." ++ toString (n.natAbs % 10)
  if n < 0 then "-" ++ s else s

/-- Conversion of the selected candidates to `TransferRecommendation` objects
(lines 265–277), with `priority = i + 1` from `enumerate`. -/
def toRecommendations (selected : List Candidate) : List TransferRecommendation :=
  selected.enum.map fun ic =>
    { player_out_id := ic.2.out_id
      player_in_id := ic.2.in_id
      player_out_name := ic.2.out_name
      player_in_name := ic.2.in_name
      cost_change := ic.2.cost_change
      points_potential := ic.2.points_improvement
      confidence := min (ic.2.points_improvement / 10) 1
      reason := "Expected " ++ fmt1 ic.2.points_improvement ++
        " additional points over next 6 GWs"
      priority := ic.1 + 1 }

/-- The accepted-candidate list of `_solve_transfer_optimization`: split the
player table into roster and pool, enumerate candidates, sort by value ratio
descending and run the greedy selection. -/
def solveSelected (players : List PlayerRow) (current_team : List ℕ)
    (proj : ℕ → ℚ) (us : UserStrategy) (max_transfers : ℕ)
    (allow_hits : Bool) : List Candidate :=
  selectGreedy
    (sortCandidates
      (gen_candidates (players.filter fun p => current_team.contains p.id)
        (players.filter fun p => !current_team.contains p.id) proj us.bank))
    us.bank us.free_transfers max_transfers allow_hits

/-- Embedding of `TransferOptimizer._solve_transfer_optimization` (lines 186–279). -/
def solve_transfer_optimization (players : List PlayerRow)
    (current_team : List ℕ) (proj : ℕ → ℚ) (us : UserStrategy)
    (max_transfers : ℕ) (allow_hits : Bool) : List TransferRecommendation :=
  toRecommendations (solveSelected players current_team proj us max_transfers allow_hits)

/-- The greedy loop only ever appends accepted candidates, so the final
selection extends the initial one by a sublist of the input. -/
theorem foldl_selStep_selected (ft mt : ℕ) (ah : Bool) :
    ∀ (l : List Candidate) (st : SelState),
      ∃ s, (l.foldl (selStep ft mt ah) st).selected = st.selected ++ s ∧
        s.Sublist l
  | [], _ => ⟨[], by simp⟩
  | c :: t, st => by
      obtain ⟨s, hs, hsub⟩ :=
        foldl_selStep_selected ft mt ah t (selStep ft mt ah st c)
      rw [List.foldl_cons]
      rcases selStep_cases ft mt ah st c with heq | ⟨heq, -, -, -, -⟩
      · refine ⟨s, ?_, hsub.cons c⟩
        rw [hs, heq]
      · refine ⟨c :: s, ?_, hsub.cons₂ c⟩
        rw [hs, heq]
        simp

/-- The greedy selection returns a sublist of its candidate list. -/
theorem selectGreedy_sublist (cands : List Candidate) (bank : ℚ)
    (ft mt : ℕ) (ah : Bool) :
    (selectGreedy cands bank ft mt ah).Sublist cands := by
  obtain ⟨s, hs, hsub⟩ := foldl_selStep_selected ft mt ah cands ⟨[], [], [], bank⟩
  unfold selectGreedy
  rw [hs]
  simpa using hsub

/-- The priorities produced by `toRecommendations` are exactly `1..k`. -/
theorem toRecommendations_priorities (l : List Candidate) :
    (toRecommendations l).map TransferRecommendation.priority =
      List.range' 1 l.length := by
  unfold toRecommendations
  rw [List.map_map]
  have h1 : (TransferRecommendation.priority ∘ fun ic : ℕ × Candidate =>
      TransferRecommendation.mk ic.2.out_id ic.2.in_id ic.2.out_name
        ic.2.in_name ic.2.cost_change ic.2.points_improvement
        (min (ic.2.points_improvement / 10) 1)
        ("Expected " ++ fmt1 ic.2.points_improvement ++
          " additional points over next 6 GWs") (ic.1 + 1)) =
      (fun n => n + 1) ∘ Prod.fst := rfl
  rw [h1, ← List.map_map, List.enum_map_fst, List.range'_eq_map_range]
  exact List.map_congr_left fun a _ => Nat.add_comm a 1

/-- C10 (confirmed). The recommendations returned by
`_solve_transfer_optimization` carry priorities exactly `1..k` (1 = the
highest-value accepted transfer), and the accepted candidates they were built
from are in non-increasing value-ratio order. -/
theorem solve_priorities_and_order (players : List PlayerRow)
    (current_team : List ℕ) (proj : ℕ → ℚ) (us : UserStrategy)
    (mt : ℕ) (ah : Bool) :
    (solve_transfer_optimization players current_team proj us mt ah).map
        TransferRecommendation.priority =
      List.range' 1 (solveSelected players current_team proj us mt ah).length ∧
    (solveSelected players current_team proj us mt ah).Pairwise ratioGE := by
  constructor
  · exact toRecommendations_priorities _
  · have hsorted := List.sorted_insertionSort ratioGE
      (gen_candidates (players.filter fun p => current_team.contains p.id)
        (players.filter fun p => !current_team.contains p.id) proj us.bank)
    have hsub := selectGreedy_sublist
      (sortCandidates (gen_candidates
        (players.filter fun p => current_team.contains p.id)
        (players.filter fun p => !current_team.contains p.id) proj us.bank))
      us.bank us.free_transfers mt ah
    exact hsorted.sublist hsub

/-! ## The projection model (lines 70–184) -/

/-- Python list slicing `l[:w]` for a possibly negative bound `w`. -/
def pySliceTo (l : List ℤ) (w : ℤ) : List ℤ :=
  if 0 ≤ w then l.take w.toNat else l.take (l.length - w.natAbs)

/-- Embedding of `_calculate_base_projection` (lines 103–123). `weeks` is a Python int and
may be non-positive; `current_gw * 90` is never zero in a live season
(`get_current_gameweek` ≥ 1), and a zero value would raise in Python where the
rational model yields `x / 0 = 0`. -/
def calc_base_projection (p : PlayerRow) (weeks : ℤ) (current_gw : ℕ) : ℚ :=
  let form_weight : ℚ := 0.6
  let season_weight : ℚ := 0.4
  let form_projection := p.form_float * (weeks : ℚ) * form_weight
  let season_projection := p.points_per_game * (weeks : ℚ) * season_weight
  let minutes_factor := min (p.minutes / ((current_gw : ℚ) * 90)) 1
  let base_projection := (form_projection + season_projection) * minutes_factor
  let bonus_factor := 1 + p.bonus / max p.total_points 1 * 0.1
  base_projection * bonus_factor

/-- Embedding of `_calculate_fixture_adjustment` (lines 125–142). -/
def calc_fixture_adjustment (team_id : ℕ)
    (team_difficulty : ℕ → Option TeamDiffInfo) (weeks : ℤ) : ℚ :=
  match team_difficulty team_id with
  | none => 1
  | some info =>
      let difficulties := pySliceTo info.difficulties weeks
      if difficulties = [] then 1
      else
        let avg_difficulty :=
          (difficulties.map fun d => (d : ℚ)).sum / (difficulties.length : ℚ)
        max 0.8 (min 1.2 (1 + (3 - avg_difficulty) * 0.1))

/-- Embedding of `_calculate_position_adjustment` (lines 144–169). -/
def calc_position_adjustment (p : PlayerRow) : ℚ :=
  if p.element_type = 1 then
    1 + p.clean_sheets / max p.starts 1 * 0.1
  else if p.element_type = 2 then
    1 + (p.goals_scored + p.assists) / 10 * 0.1
  else if p.element_type = 3 then
    let ict_bonus := match p.ict_index with
      | some v => v / 100
      | none => 0
    1 + ict_bonus * 0.05
  else
    1 + p.goals_scored / 10 * 0.1

/-- Embedding of `_calculate_availability_adjustment` (lines 171–184). -/
def calc_availability_adjustment (p : PlayerRow) : ℚ :=
  let games_started := max p.starts 1
  let minutes_per_game := p.minutes / games_started
  let availability_factor := min (minutes_per_game / 90) 1
  let availability_factor2 :=
    if p.minutes < games_started * 45 then availability_factor * 0.9
    else availability_factor
  max 0.7 availability_factor2

/-- Embedding of `_calculate_player_projections` (lines 70–101): the per-player projection
dict, keyed by player id, floored at zero. -/
def calc_player_projections (players : List PlayerRow)
    (team_difficulty : ℕ → Option TeamDiffInfo) (current_gw : ℕ)
    (weeks_ahead : ℤ) : List (ℕ × ℚ) :=
  players.map fun p =>
    (p.id,
      max 0
        (calc_base_projection p weeks_ahead current_gw *
          calc_fixture_adjustment p.team team_difficulty weeks_ahead *
          calc_position_adjustment p *
          calc_availability_adjustment p))

/-- Embedding of `projections.get(player_id, 0)`: dict lookup with default 0. -/
def projGet (projections : List (ℕ × ℚ)) (i : ℕ) : ℚ :=
  match projections.find? (fun e => e.1 == i) with
  | some e => e.2
  | none => 0

/-- Embedding of `TransferOptimizer.optimize_transfers` (lines 38–68): compute the
projection dict for the requested horizon, then run the greedy selection.
The source contains no horizon validation of any kind. -/
def optimize_transfers (players : List PlayerRow)
    (team_difficulty : ℕ → Option TeamDiffInfo) (current_gw : ℕ)
    (us : UserStrategy) (current_team : List ℕ) (weeks_ahead : ℤ)
    (max_transfers : ℕ) (allow_hits : Bool) : List TransferRecommendation :=
  solve_transfer_optimization players current_team
    (projGet (calc_player_projections players team_difficulty current_gw
      weeks_ahead)) us max_transfers allow_hits

/-- Embedding of `TransferOptimizer._get_player_fixture_difficulty` (lines 341–355).
`none` models the `IndexError` raised by `.iloc[0]` when the player id is
absent from the players table. -/
def get_player_fixture_difficulty (players : List PlayerRow)
    (team_difficulty : ℕ → Option TeamDiffInfo) (player_id : ℕ)
    (weeks : ℕ) : Option (List ℤ) :=
  match players.find? (fun p => p.id == player_id) with
  | none => none
  | some player =>
      some
        (match team_difficulty player.team with
         | some info => info.difficulties.take weeks
         | none => List.replicate weeks 3)

/-- Non-negativity of the statistics columns the projection model consumes —
true of all real FPL data (a NaN `ict_index` is the `none` case, whose `getD`
reading is 0). -/
def NonnegStats (p : PlayerRow) : Prop :=
  0 ≤ p.form_float ∧ 0 ≤ p.points_per_game ∧ 0 ≤ p.minutes ∧ 0 ≤ p.bonus ∧
  0 ≤ p.clean_sheets ∧ 0 ≤ p.goals_scored ∧ 0 ≤ p.assists ∧
  0 ≤ p.ict_index.getD 0

instance (p : PlayerRow) : Decidable (NonnegStats p) := by
  unfold NonnegStats
  infer_instance

/-- With non-negative statistics every role multiplier is at least 1. -/
theorem one_le_position_adjustment (p : PlayerRow) (h : NonnegStats p) :
    1 ≤ calc_position_adjustment p := by
  obtain ⟨-, -, -, -, hcs, hg, ha, hict⟩ := h
  have hstarts : (0 : ℚ) ≤ max p.starts 1 := le_max_of_le_right zero_le_one
  unfold calc_position_adjustment
  split_ifs with h1 h2 h3
  · have hb : 0 ≤ p.clean_sheets / max p.starts 1 * 0.1 :=
      mul_nonneg (div_nonneg hcs hstarts) (by norm_num)
    linarith
  · have hb : 0 ≤ (p.goals_scored + p.assists) / 10 * 0.1 :=
      mul_nonneg (div_nonneg (by linarith) (by norm_num)) (by norm_num)
    linarith
  · cases hi : p.ict_index with
    | none => simp [hi]
    | some v =>
        rw [hi] at hict
        simp only [Option.getD_some] at hict
        have hb : 0 ≤ v / 100 * 0.05 :=
          mul_nonneg (div_nonneg hict (by norm_num)) (by norm_num)
        simp only [hi]
        linarith
  · have hb : 0 ≤ p.goals_scored / 10 * 0.1 :=
      mul_nonneg (div_nonneg hg (by norm_num)) (by norm_num)
    linarith

/-- C4 counterexample: a defender (`element_type = 2`) with 20 goals and 10
assists receives a role multiplier of 1.3, above the claimed 1.2 cap — the
source applies no cap to the role bonus. -/
theorem position_adjustment_cap_counterexample :
    calc_position_adjustment
        ⟨10, 1, 2, "d", 5, 0, 0, 0, 0, 0, 0, 0, 20, 10, none⟩ = 13 / 10 ∧
    ¬ (calc_position_adjustment
        ⟨10, 1, 2, "d", 5, 0, 0, 0, 0, 0, 0, 0, 20, 10, none⟩ ≤ 12 / 10) := by
  constructor
  · norm_num [calc_position_adjustment]
  · norm_num [calc_position_adjustment]

/-- C4 (amended). Each role multiplier equals 1 plus a non-negative linear
bonus in the role-specific signal (clean-sheet rate, goal involvements, ICT
index, goals), so for non-negative statistics it is at least 1; but the bonus
is uncapped, and in particular can exceed the claimed 1.2 bound. -/
theorem position_adjustment_lower_bound (p : PlayerRow) (h : NonnegStats p) :
    1 ≤ calc_position_adjustment p :=
  one_le_position_adjustment p h

/-- Witness for the amended C4 at a concrete goalkeeper row. -/
theorem position_adjustment_lower_bound_witness :
    1 ≤ calc_position_adjustment
      ⟨3, 1, 1, "gk", 4, 2, 3, 900, 1, 40, 5, 10, 0, 0, some 50⟩ :=
  position_adjustment_lower_bound _ (by decide)

/-! ## C3: behaviour of the pipeline on a non-positive horizon -/

/-- With a non-positive horizon and non-negative statistics, the base
projection is non-positive. -/
theorem base_projection_nonpos (p : PlayerRow) (weeks : ℤ) (cg : ℕ)
    (hw : weeks ≤ 0) (h : NonnegStats p) :
    calc_base_projection p weeks cg ≤ 0 := by
  obtain ⟨hform, hppg, hmin, hbonus, -, -, -, -⟩ := h
  have hwq : (weeks : ℚ) ≤ 0 := by exact_mod_cast hw
  unfold calc_base_projection
  have h1 : p.form_float * (weeks : ℚ) * 0.6 ≤ 0 :=
    mul_nonpos_of_nonpos_of_nonneg
      (mul_nonpos_of_nonneg_of_nonpos hform hwq) (by norm_num)
  have h2 : p.points_per_game * (weeks : ℚ) * 0.4 ≤ 0 :=
    mul_nonpos_of_nonpos_of_nonneg
      (mul_nonpos_of_nonneg_of_nonpos hppg hwq) (by norm_num)
  have hmf : 0 ≤ min (p.minutes / ((cg : ℚ) * 90)) 1 :=
    le_min (div_nonneg hmin (by positivity)) zero_le_one
  have hbf : 0 ≤ 1 + p.bonus / max p.total_points 1 * 0.1 := by
    have : 0 ≤ p.bonus / max p.total_points 1 * 0.1 :=
      mul_nonneg
        (div_nonneg hbonus (le_max_of_le_right zero_le_one)) (by norm_num)
    linarith
  exact mul_nonpos_of_nonpos_of_nonneg
    (mul_nonpos_of_nonpos_of_nonneg (by linarith) hmf) hbf

/-- The fixture adjustment is non-negative (it is 1 or clamped to at least 0.8). -/
theorem fixture_adjustment_nonneg (team_id : ℕ)
    (td : ℕ → Option TeamDiffInfo) (weeks : ℤ) :
    0 ≤ calc_fixture_adjustment team_id td weeks := by
  unfold calc_fixture_adjustment
  cases td team_id with
  | none => norm_num
  | some info =>
      simp only
      split_ifs
      · norm_num
      · exact le_trans (by norm_num) (le_max_left 0.8 _)

/-- The availability adjustment is non-negative (floored at 0.7). -/
theorem availability_adjustment_nonneg (p : PlayerRow) :
    0 ≤ calc_availability_adjustment p := by
  unfold calc_availability_adjustment
  exact le_trans (by norm_num) (le_max_left 0.7 _)

/-- With a non-positive horizon every projection in the dict is zero. -/
theorem projections_zero_of_nonpos (players : List PlayerRow)
    (td : ℕ → Option TeamDiffInfo) (cg : ℕ) (weeks : ℤ)
    (hw : weeks ≤ 0) (hstats : ∀ p ∈ players, NonnegStats p) :
    ∀ e ∈ calc_player_projections players td cg weeks, e.2 = 0 := by
  intro e he
  unfold calc_player_projections at he
  obtain ⟨p, hp, rfl⟩ := List.mem_map.mp he
  have hpos : 0 ≤ calc_position_adjustment p :=
    le_trans zero_le_one (one_le_position_adjustment p (hstats p hp))
  have hfinal :
      calc_base_projection p weeks cg *
        calc_fixture_adjustment p.team td weeks *
        calc_position_adjustment p * calc_availability_adjustment p ≤ 0 := by
    exact mul_nonpos_of_nonpos_of_nonneg
      (mul_nonpos_of_nonpos_of_nonneg
        (mul_nonpos_of_nonpos_of_nonneg
          (base_projection_nonpos p weeks cg hw (hstats p hp))
          (fixture_adjustment_nonneg p.team td weeks))
        hpos)
      (availability_adjustment_nonneg p)
  simpa using max_eq_left hfinal

/-- A projection dict whose entries are all zero looks up to zero everywhere. -/
theorem projGet_zero (projections : List (ℕ × ℚ))
    (hz : ∀ e ∈ projections, e.2 = 0) (i : ℕ) : projGet projections i = 0 := by
  unfold projGet
  cases hfind : projections.find? (fun e => e.1 == i) with
  | none => rfl
  | some e => exact hz e (List.mem_of_find?_eq_some hfind)

/-- With an all-zero projection function no candidate has positive gain, so
candidate generation yields nothing. -/
theorem gen_candidates_of_zero (ctdf pool : List PlayerRow)
    (proj : ℕ → ℚ) (bank : ℚ) (hz : ∀ i, proj i = 0) :
    gen_candidates ctdf pool proj bank = [] := by
  unfold gen_candidates
  rw [List.flatMap_eq_nil_iff]
  intro cur _
  rw [List.filterMap_eq_nil_iff]
  intro cand _
  simp only [hz]
  split_ifs with h1 h2
  · norm_num at h2
  · rfl
  · rfl

/-- C3 (amended). `optimize_transfers` performs no horizon validation: a
request with a non-positive `weeks_ahead` (given non-negative player
statistics) is processed like any other, every projection collapses to zero,
no candidate survives the positive-gain filter, and the empty recommendation
list is returned normally — no error is raised before or during computation. -/
theorem optimize_transfers_nonpositive_horizon (players : List PlayerRow)
    (td : ℕ → Option TeamDiffInfo) (current_gw : ℕ) (us : UserStrategy)
    (current_team : List ℕ) (weeks_ahead : ℤ) (mt : ℕ) (ah : Bool)
    (hw : weeks_ahead ≤ 0) (hstats : ∀ p ∈ players, NonnegStats p) :
    optimize_transfers players td current_gw us current_team weeks_ahead
      mt ah = [] := by
  unfold optimize_transfers solve_transfer_optimization solveSelected
  rw [gen_candidates_of_zero _ _ _ _
    (projGet_zero _ (projections_zero_of_nonpos players td current_gw
      weeks_ahead hw hstats))]
  rfl

/-- Witness for the amended C3: a concrete one-player request with horizon −1
returns the empty list. -/
theorem optimize_transfers_nonpositive_horizon_witness :
    optimize_transfers [⟨1, 1, 1, "gk", 4, 2, 2, 90, 0, 10, 1, 1, 0, 0, none⟩]
      (fun _ => none) 10 ⟨1, 100, .dict fun _ => 0, []⟩ [1] (-1) 2 true = [] :=
  optimize_transfers_nonpositive_horizon _ _ _ _ _ _ _ _ (by norm_num)
    (by decide)

/-- C3 counterexample. The claim says a zero-length horizon "fails fast with a
descriptive error before any computation begins, rather than returning a
result". The source raises nothing on this path (there is no validation in
`optimize_transfers` or `_calculate_player_projections`): the embedding is a
total function, and at a concrete request with `weeks_ahead = 0` the full
pipeline runs and returns a normal (empty) recommendation list. -/
theorem invalid_horizon_counterexample :
    optimize_transfers
      [⟨1, 1, 1, "gk", 4, 2, 2, 90, 0, 10, 1, 1, 0, 0, none⟩,
       ⟨2, 1, 1, "gk2", 5, 3, 3, 90, 1, 12, 1, 1, 0, 0, none⟩]
      (fun t => if t = 1 then some ⟨[2, 3]⟩ else none) 10
      ⟨1, 100, .dict fun _ => 0, []⟩ [1] 0 2 true = [] := by
  have hz := projGet_zero _
    (projections_zero_of_nonpos
      [⟨1, 1, 1, "gk", 4, 2, 2, 90, 0, 10, 1, 1, 0, 0, none⟩,
       ⟨2, 1, 1, "gk2", 5, 3, 3, 90, 1, 12, 1, 1, 0, 0, none⟩]
      (fun t => if t = 1 then some ⟨[2, 3]⟩ else none) 10 0 le_rfl (by decide))
  unfold optimize_transfers solve_transfer_optimization solveSelected
  rw [gen_candidates_of_zero _ _ _ _ hz]
  rfl

/-! ## C6: the per-player fixture difficulty profile -/

/-- C6 counterexample: a player whose team is present in the difficulty index
with a single upcoming fixture gets a 1-element profile for a requested
4-cycle horizon — the three missing cycles are not filled with the neutral 3. -/
theorem fixture_profile_length_counterexample :
    get_player_fixture_difficulty
        [⟨1, 7, 1, "gk", 4, 0, 0, 0, 0, 0, 0, 0, 0, 0, none⟩]
        (fun t => if t = 7 then some ⟨[2]⟩ else none) 1 4 = some [2] ∧
    ¬ (([2] : List ℤ).length = 4) := by
  constructor
  · decide
  · decide

/-- C6 (amended). For a player present in the players table: when the player's
team is absent from the difficulty index the profile is exactly `weeks` copies
of the neutral default 3; when present, the profile is the first
`min weeks available` per-fixture difficulties — so its length is
`min weeks available`, which can fall short of the requested horizon, and no
neutral padding is applied. -/
theorem fixture_profile_amended (players : List PlayerRow)
    (td : ℕ → Option TeamDiffInfo) (player_id weeks : ℕ) (p : PlayerRow)
    (hfind : players.find? (fun q => q.id == player_id) = some p) :
    ∃ ds, get_player_fixture_difficulty players td player_id weeks = some ds ∧
      ds.length =
        min weeks ((td p.team).elim weeks fun info => info.difficulties.length) ∧
      (td p.team = none → ds = List.replicate weeks 3) := by
  unfold get_player_fixture_difficulty
  rw [hfind]
  dsimp only
  cases htd : td p.team with
  | none =>
      exact ⟨List.replicate weeks 3, rfl, by simp, fun _ => rfl⟩
  | some info =>
      exact ⟨info.difficulties.take weeks, rfl, by simp,
        fun h => Option.noConfusion h⟩

/-- Witness for the amended C6 at a concrete player and index. -/
theorem fixture_profile_amended_witness :
    ∃ ds, get_player_fixture_difficulty
        [⟨1, 7, 1, "gk", 4, 0, 0, 0, 0, 0, 0, 0, 0, 0, none⟩]
        (fun t => if t = 7 then some ⟨[2, 5, 1]⟩ else none) 1 2 = some ds ∧
      ds.length =
        min 2 (((fun t => if t = 7 then some (TeamDiffInfo.mk [2, 5, 1])
            else none) (7 : ℕ)).elim 2 fun info => info.difficulties.length) ∧
      ((fun t : ℕ => if t = 7 then some (TeamDiffInfo.mk [2, 5, 1]) else none) 7
          = none →
        ds = List.replicate 2 3) :=
  fixture_profile_amended _ _ 1 2
    ⟨1, 7, 1, "gk", 4, 0, 0, 0, 0, 0, 0, 0, 0, 0, none⟩ (by decide)

/-! ## ChipPlanner (lines 357–802) -/

/-- One row of `fixtures_df` as read by `_analyze_upcoming_fixtures`. -/
structure FixtureRow where
  event : ℕ
  team_h : ℕ
  team_a : ℕ
  team_h_difficulty : ℤ
  team_a_difficulty : ℤ
  deriving DecidableEq, Repr

/-- The per-gameweek analysis dict built by `_analyze_upcoming_fixtures`
(lines 488–494). `team_fixtures` is the insertion-ordered team→count dict. -/
structure GwInfo where
  total_fixtures : ℕ
  avg_difficulty : ℚ
  is_double_gw : Bool
  is_blank_gw : Bool
  team_fixtures : List (ℕ × ℕ)
  deriving DecidableEq, Repr

/-- Embedding of `team_fixtures[team] = team_fixtures.get(team, 0) + 1`: dict update
preserving insertion order, appending new keys at the end. -/
def bumpCount (l : List (ℕ × ℕ)) (k : ℕ) : List (ℕ × ℕ) :=
  match l with
  | [] => [(k, 1)]
  | (k2, v) :: rest =>
      if k2 = k then (k2, v + 1) :: rest else (k2, v) :: bumpCount rest k

/-- The body of `_analyze_upcoming_fixtures` for one gameweek (lines 463–494). -/
def gwInfoFor (fixtures : List FixtureRow) (gw : ℕ) : GwInfo :=
  let gw_fixtures := fixtures.filter fun f => f.event == gw
  let team_fixtures := gw_fixtures.foldl
    (fun acc f => bumpCount (bumpCount acc f.team_h) f.team_a) []
  let total_fixtures := gw_fixtures.length
  let difficulties :=
    if 0 < gw_fixtures.length then
      gw_fixtures.map (fun f => f.team_h_difficulty) ++
        gw_fixtures.map (fun f => f.team_a_difficulty)
    else []
  let avg_difficulty : ℚ :=
    if difficulties ≠ [] then
      (difficulties.map fun d => (d : ℚ)).sum / (difficulties.length : ℚ)
    else 3
  { total_fixtures := total_fixtures
    avg_difficulty := avg_difficulty
    is_double_gw := 10 < total_fixtures
    is_blank_gw := total_fixtures < 5
    team_fixtures := team_fixtures }

/-- Embedding of `_analyze_upcoming_fixtures` (lines 455–496): the analysis dict keyed by
gameweek over `range(current_gw, current_gw + weeks)`, in insertion order. -/
def analyze_upcoming_fixtures (current_gw weeks : ℕ)
    (fixtures : List FixtureRow) : List (ℕ × GwInfo) :=
  (List.range' current_gw weeks).map fun gw => (gw, gwInfoFor fixtures gw)

/-- Embedding of `gw in fixture_analysis` / `fixture_analysis[gw]` lookup. -/
def faGet (fa : List (ℕ × GwInfo)) (gw : ℕ) : Option GwInfo :=
  (fa.find? fun e => e.1 == gw).map fun e => e.2

/-- Dict subscript `fixture_analysis[gw]`. The planner only subscripts keys it
has already checked for membership (a missing key would raise `KeyError` in
the source), so the default is unreachable on those paths. -/
def faAt (fa : List (ℕ × GwInfo)) (gw : ℕ) : GwInfo :=
  (faGet fa gw).getD ⟨0, 3, false, false, []⟩

/-- Embedding of `_identify_double_gameweeks` (lines 498–522): count-based detection plus
the historically-likely periods with their makeup-gameweek search. -/
def identify_double_gameweeks (fa : List (ℕ × GwInfo))
    (current_gw : ℕ) : List ℕ :=
  let double0 := fa.foldl
    (fun acc e =>
      if 10 < e.2.total_fixtures ∨ (8 < e.2.total_fixtures ∧ 25 < e.1) then
        acc ++ [e.1]
      else acc) []
  let double1 := (List.range' 25 5 ++ List.range' 36 2).foldl
    (fun acc gw =>
      match faGet fa gw with
      | none => acc
      | some d =>
          if current_gw ≤ gw ∧ gw ∉ acc ∧ d.total_fixtures < 8 then
            match (List.range' (gw + 1) (min (gw + 5) 39 - (gw + 1))).find?
                (fun m => (faGet fa m).isSome && !acc.contains m) with
            | some m => acc ++ [m]
            | none => acc
          else acc) double0
  double1.insertionSort (· ≤ ·)

/-- Embedding of `_identify_blank_gameweeks` (lines 524–540). -/
def identify_blank_gameweeks (fa : List (ℕ × GwInfo))
    (current_gw : ℕ) : List ℕ :=
  let blank0 := fa.foldl
    (fun acc e => if e.2.total_fixtures < 5 then acc ++ [e.1] else acc) []
  let blank1 := [18, 28, 29].foldl
    (fun acc gw =>
      match faGet fa gw with
      | none => acc
      | some d =>
          if current_gw ≤ gw ∧ gw ∉ acc ∧ d.total_fixtures < 8 then
            acc ++ [gw]
          else acc) blank0
  blank1.insertionSort (· ≤ ·)

/-- The inner score of `_find_optimal_wildcard_timing` (lines 655–662): sum of
`(5 − difficulty) * 2` plus a double-gameweek bonus over the next 5 cycles. -/
def wcScore (fa : List (ℕ × GwInfo)) (gw : ℕ) : ℚ :=
  (List.range' (gw + 1) (min (gw + 6) 39 - (gw + 1))).foldl
    (fun score future_gw =>
      match faGet fa future_gw with
      | none => score
      | some d =>
          score + ((5 - d.avg_difficulty) * 2 +
            if d.is_double_gw then 2 else 0)) 0

/-- Embedding of `_find_optimal_wildcard_timing` (lines 646–668): best-scoring gameweek in
`range(max(current_gw + 1, min_gw), min(max_gw + 1, 39))`, starting from
`best_gw = min_gw` with `best_score = 0` and updating on strict improvement. -/
def find_optimal_wildcard_timing (fa : List (ℕ × GwInfo))
    (current_gw min_gw max_gw : ℕ) : ℕ :=
  ((List.range' (max (current_gw + 1) min_gw)
      (min (max_gw + 1) 39 - max (current_gw + 1) min_gw)).foldl
    (fun st gw =>
      match faGet fa gw with
      | none => st
      | some _ =>
          let score := wcScore fa gw
          if st.2 < score then (gw, score) else st)
    (min_gw, (0 : ℚ))).1

/-- Embedding of `_plan_multiple_wildcards` (lines 542–556): first wildcard in the GW8–15
window, second in the GW25–35 window. -/
def plan_multiple_wildcards (fa : List (ℕ × GwInfo))
    (current_gw count : ℕ) : List ℕ :=
  if 1 ≤ count then
    if 2 ≤ count then
      [find_optimal_wildcard_timing fa current_gw (max (current_gw + 1) 8) 15,
       find_optimal_wildcard_timing fa
         (max (find_optimal_wildcard_timing fa current_gw
            (max (current_gw + 1) 8) 15 + 8) 25) 25 35]
    else [find_optimal_wildcard_timing fa current_gw (max (current_gw + 1) 8) 15]
  else []

/-- Embedding of `_find_best_regular_gameweek` (lines 670–685). -/
def find_best_regular_gameweek (fa : List (ℕ × GwInfo)) (current_gw : ℕ)
    (exclude : List ℕ) : Option ℕ :=
  ((List.range' (current_gw + 1) (38 - current_gw)).foldl
    (fun st gw =>
      match faGet fa gw with
      | none => st
      | some d =>
          if gw ∉ exclude then
            let score := (5 - d.avg_difficulty) * 2 + (d.total_fixtures : ℚ) / 10
            if st.2 < score then (some gw, score) else st
          else st)
    ((none : Option ℕ), (0 : ℚ))).1

/-- Embedding of `_find_best_captain_gameweek` (lines 687–701). -/
def find_best_captain_gameweek (fa : List (ℕ × GwInfo)) (current_gw : ℕ)
    (exclude : List ℕ) : Option ℕ :=
  ((List.range' (current_gw + 1) (38 - current_gw)).foldl
    (fun st gw =>
      match faGet fa gw with
      | none => st
      | some d =>
          if gw ∉ exclude then
            let score := (5 - d.avg_difficulty) * 4
            if st.2 < score then (some gw, score) else st
          else st)
    ((none : Option ℕ), (0 : ℚ))).1

/-- The `while len(...) < count` fill loops (lines 578–583, 607–612): keep
asking the finder for a next gameweek, excluding picks so far, until the count
is reached or the finder returns nothing. The fuel is the number of missing
entries, which the loop decreases by one per iteration. -/
def fillChips (find_next : List ℕ → Option ℕ) : ℕ → List ℕ → List ℕ
  | 0, acc => acc
  | n + 1, acc =>
      match find_next acc with
      | some g => fillChips find_next n (acc ++ [g])
      | none => acc

/-- Embedding of `_plan_multiple_bench_boosts` (lines 558–585). -/
def plan_multiple_bench_boosts (double_gws : List ℕ)
    (fa : List (ℕ × GwInfo)) (current_gw count : ℕ) : List ℕ :=
  let scored_dgws := double_gws.foldl
    (fun acc gw =>
      if current_gw + 1 ≤ gw then
        acc ++ [(gw, (5 - (faAt fa gw).avg_difficulty) * 2 +
          if current_gw + 3 < gw then (1 : ℚ) else 0)]
      else acc) []
  let sorted_dgws := scored_dgws.insertionSort fun a b => b.2 ≤ a.2
  let bench_boosts :=
    (sorted_dgws.take (min count sorted_dgws.length)).map Prod.fst
  (fillChips (find_best_regular_gameweek fa current_gw)
    (count - bench_boosts.length) bench_boosts).insertionSort (· ≤ ·)

/-- Embedding of `_plan_multiple_triple_captains` (lines 587–614). -/
def plan_multiple_triple_captains (double_gws : List ℕ)
    (fa : List (ℕ × GwInfo)) (current_gw count : ℕ) : List ℕ :=
  let scored_dgws := double_gws.foldl
    (fun acc gw =>
      if current_gw + 1 ≤ gw then
        acc ++ [(gw, (5 - (faAt fa gw).avg_difficulty) * 3 +
          if gw ≤ current_gw + 10 then (2 : ℚ) else 0)]
      else acc) []
  let sorted_dgws := scored_dgws.insertionSort fun a b => b.2 ≤ a.2
  let triple_captains :=
    (sorted_dgws.take (min count sorted_dgws.length)).map Prod.fst
  (fillChips (find_best_captain_gameweek fa current_gw)
    (count - triple_captains.length) triple_captains).insertionSort (· ≤ ·)

/-- Embedding of `_plan_multiple_free_hits` (lines 616–644). -/
def plan_multiple_free_hits (blank_gws : List ℕ)
    (fa : List (ℕ × GwInfo)) (current_gw count : ℕ) : List ℕ :=
  let fh0 := blank_gws.foldl
    (fun acc gw =>
      if current_gw + 1 ≤ gw ∧ acc.length < count then acc ++ [gw] else acc) []
  let fh1 :=
    if fh0.length < count then
      (List.range' (current_gw + 1) (38 - current_gw)).foldl
        (fun acc gw =>
          if count ≤ acc.length then acc
          else
            match faGet fa gw with
            | none => acc
            | some d =>
                if gw ∉ acc then
                  if 6 ≤ (d.team_fixtures.filter fun tc => 1 < tc.2).length ∧
                      d.avg_difficulty < 3 then
                    acc ++ [gw]
                  else acc
                else acc) fh0
    else fh0
  fh1.insertionSort (· ≤ ·)

/-- Embedding of `ChipPlanner.create_chip_strategy` (lines 364–453): plan each chip type
with remaining allotments and sort the strategies by priority. The
`user_strategy.planned_chips` field is never consulted. -/
def create_chip_strategy (current_gw : ℕ) (fixtures : List FixtureRow)
    (user_strategy : UserStrategy) : List ChipStrategy :=
  let remaining_gws := 38 - current_gw + 1
  let fixture_analysis := analyze_upcoming_fixtures current_gw remaining_gws fixtures
  let double_gameweeks := identify_double_gameweeks fixture_analysis current_gw
  let blank_gameweeks := identify_blank_gameweeks fixture_analysis current_gw
  let wc_strategies :=
    if 0 < chipsGet user_strategy.chips_remaining ChipType.wildcard then
      (plan_multiple_wildcards fixture_analysis current_gw
          (chipsGet user_strategy.chips_remaining ChipType.wildcard)).enum.map
        fun iw =>
          { chip_type := ChipType.wildcard
            planned_gameweek := iw.2
            priority := if iw.1 = 0 then 1 else 5
            reason :=
              if iw.1 = 0 then "Optimal team restructuring before good fixture run"
              else "Late season squad overhaul"
            locked := false }
    else []
  let bb_strategies :=
    if 0 < chipsGet user_strategy.chips_remaining ChipType.bench_boost then
      (plan_multiple_bench_boosts double_gameweeks fixture_analysis current_gw
          (chipsGet user_strategy.chips_remaining ChipType.bench_boost)).enum.map
        fun iw =>
          { chip_type := ChipType.bench_boost
            planned_gameweek := iw.2
            priority := if iw.1 = 0 then 2 else 6
            reason :=
              if iw.1 = 0 then "Prime double gameweek with full bench participation"
              else "Secondary double gameweek opportunity"
            locked := false }
    else []
  let tc_strategies :=
    if 0 < chipsGet user_strategy.chips_remaining ChipType.triple_captain then
      (plan_multiple_triple_captains double_gameweeks fixture_analysis current_gw
          (chipsGet user_strategy.chips_remaining ChipType.triple_captain)).enum.map
        fun iw =>
          { chip_type := ChipType.triple_captain
            planned_gameweek := iw.2
            priority := if iw.1 = 0 then 3 else 7
            reason :=
              if iw.1 = 0 then "Premium captain pick in ideal double gameweek"
              else "Secondary captain opportunity"
            locked := false }
    else []
  let fh_strategies :=
    if 0 < chipsGet user_strategy.chips_remaining ChipType.free_hit then
      (plan_multiple_free_hits blank_gameweeks fixture_analysis current_gw
          (chipsGet user_strategy.chips_remaining ChipType.free_hit)).enum.map
        fun iw =>
          { chip_type := ChipType.free_hit
            planned_gameweek := iw.2
            priority := if iw.1 = 0 then 4 else 8
            reason :=
              if iw.1 = 0 then "Critical blank gameweek navigation"
              else "Secondary blank gameweek or fixture exploit"
            locked := false }
    else []
  (wc_strategies ++ bb_strategies ++ tc_strategies ++ fh_strategies).insertionSort
    fun a b => a.priority ≤ b.priority

/-- Embedding of `ChipPlanner.update_chip_bookmarks` (lines 780–802): drop any existing plan
for this chip type, then append the new bookmark with priority
`len(remaining plans) + 1`. -/
def update_chip_bookmarks (user_strategy : UserStrategy)
    (chip_type : ChipType) (gameweek : ℕ) (locked : Bool) : UserStrategy :=
  let filtered := user_strategy.planned_chips.filter
    fun cs => cs.chip_type != chip_type
  { user_strategy with
    planned_chips := filtered ++
      [{ chip_type := chip_type
         planned_gameweek := gameweek
         priority := filtered.length + 1
         reason := "User bookmarked"
         locked := locked }] }

/-- The wildcard-timing search returns either its window floor `min_gw` or a
member of the searched range (strictly below `min (max_gw + 1) 39`), and never
less than `min_gw`. -/
theorem find_optimal_wildcard_timing_bounds (fa : List (ℕ × GwInfo))
    (current_gw min_gw max_gw : ℕ) :
    min_gw ≤ find_optimal_wildcard_timing fa current_gw min_gw max_gw ∧
    (find_optimal_wildcard_timing fa current_gw min_gw max_gw = min_gw ∨
      find_optimal_wildcard_timing fa current_gw min_gw max_gw <
        min (max_gw + 1) 39) := by
  unfold find_optimal_wildcard_timing
  apply foldl_preserves
    (fun st : ℕ × ℚ =>
      min_gw ≤ st.1 ∧ (st.1 = min_gw ∨ st.1 < min (max_gw + 1) 39))
  · intro st a ha hP
    rcases List.mem_range'_1.mp ha with ⟨hlo, hhi⟩
    cases hga : faGet fa a with
    | none => simpa [hga] using hP
    | some d =>
        simp only [hga]
        split_ifs with hsc
        · refine ⟨le_trans (le_max_right _ _) hlo, Or.inr ?_⟩
          show a < min (max_gw + 1) 39
          omega
        · exact hP
  · exact ⟨le_refl _, Or.inl rfl⟩

/-- C7 (confirmed). With two wildcard allotments remaining and current cycle 5,
the chip planner's first wildcard lands in the early window (cycles 8–15), the
second in the late window (cycles 25–35), and the two assigned cycles are never
equal — for every fixture-analysis input. -/
theorem wildcard_windows (fa : List (ℕ × GwInfo)) :
    ∃ w1 w2, plan_multiple_wildcards fa 5 2 = [w1, w2] ∧
      8 ≤ w1 ∧ w1 ≤ 15 ∧ 25 ≤ w2 ∧ w2 ≤ 35 ∧ w1 ≠ w2 := by
  obtain ⟨h1a, h1b⟩ := find_optimal_wildcard_timing_bounds fa 5 (max (5 + 1) 8) 15
  obtain ⟨h2a, h2b⟩ := find_optimal_wildcard_timing_bounds fa
    (max (find_optimal_wildcard_timing fa 5 (max (5 + 1) 8) 15 + 8) 25) 25 35
  have e8 : max (5 + 1) 8 = 8 := rfl
  rw [e8] at h1a h1b h2a h2b
  have hw1 : find_optimal_wildcard_timing fa 5 8 15 ≤ 15 := by
    rcases h1b with h | h <;> omega
  have hw2 : find_optimal_wildcard_timing fa
      (max (find_optimal_wildcard_timing fa 5 8 15 + 8) 25) 25 35 ≤ 35 := by
    rcases h2b with h | h <;> omega
  refine ⟨_, _, ?_, ?_, hw1, h2a, hw2, by omega⟩
  · unfold plan_multiple_wildcards
    norm_num
  · exact h1a

/-- C8 counterexample. With a locked wildcard already planned at cycle 38 and
one wildcard allotment remaining at current cycle 37, `create_chip_strategy`
assigns the wildcard to cycle 38 again: a cycle consumed by a locked prior
assignment of the same action type is *not* excluded from candidacy, because
`planned_chips` is never consulted. -/
theorem locked_chip_reassigned_counterexample :
    (UserStrategy.mk 1 0
        (.dict fun t => if t = ChipType.wildcard then 1 else 0)
        [⟨ChipType.wildcard, 38, 1, "prior plan", true⟩]).planned_chips =
      [⟨ChipType.wildcard, 38, 1, "prior plan", true⟩] ∧
    (ChipStrategy.mk ChipType.wildcard 38 1 "prior plan" true).locked = true ∧
    (create_chip_strategy 37 []
        (UserStrategy.mk 1 0
          (.dict fun t => if t = ChipType.wildcard then 1 else 0)
          [⟨ChipType.wildcard, 38, 1, "prior plan", true⟩])).map
        (fun cs => (cs.chip_type, cs.planned_gameweek)) =
      [(ChipType.wildcard, 38)] :=
  ⟨rfl, rfl, by decide⟩

/-- C8 (amended). `create_chip_strategy` ignores `planned_chips` entirely: its
output depends only on the current cycle, the fixture data and the remaining
allotment counts. In particular locked prior assignments do not exclude their
cycles, and the same (action type, cycle) pair as a locked plan can be
assigned again within one call. -/
theorem create_chip_strategy_ignores_planned (current_gw : ℕ)
    (fixtures : List FixtureRow) (us1 us2 : UserStrategy)
    (h : us1.chips_remaining = us2.chips_remaining) :
    create_chip_strategy current_gw fixtures us1 =
      create_chip_strategy current_gw fixtures us2 := by
  unfold create_chip_strategy
  rw [h]

/-- Witness for the amended C8: two strategies differing only in their planned
(locked) chips receive identical schedules. -/
theorem create_chip_strategy_ignores_planned_witness :
    create_chip_strategy 37 []
        ⟨1, 0, .oldList [], [⟨ChipType.wildcard, 38, 1, "prior plan", true⟩]⟩ =
      create_chip_strategy 37 [] ⟨1, 0, .oldList [], []⟩ :=
  create_chip_strategy_ignores_planned 37 [] _ _ rfl

/-- C9 (confirmed). After `update_chip_bookmarks`, the planned-chips list holds
exactly one entry of the given chip type — the newly added bookmark carrying
the given gameweek and locked flag — and the entries of every other chip type
are preserved unchanged, in order. -/
theorem update_chip_bookmarks_spec (us : UserStrategy) (ct : ChipType)
    (gw : ℕ) (locked : Bool) :
    ((update_chip_bookmarks us ct gw locked).planned_chips.filter
        fun cs => cs.chip_type == ct) =
      [⟨ct, gw,
        (us.planned_chips.filter fun cs => cs.chip_type != ct).length + 1,
        "User bookmarked", locked⟩] ∧
    ((update_chip_bookmarks us ct gw locked).planned_chips.filter
        fun cs => cs.chip_type != ct) =
      us.planned_chips.filter fun cs => cs.chip_type != ct := by
  simp only [update_chip_bookmarks]
  constructor
  · rw [List.filter_append, List.filter_filter]
    have h0 : (us.planned_chips.filter
        fun a => (a.chip_type == ct) && (a.chip_type != ct)) = [] :=
      List.filter_eq_nil_iff.mpr fun a _ => by
        by_cases h : a.chip_type = ct <;> simp [h]
    rw [h0]
    simp
  · rw [List.filter_append, List.filter_filter]
    have h1 : (us.planned_chips.filter
        fun a => (a.chip_type != ct) && (a.chip_type != ct)) =
        us.planned_chips.filter fun a => a.chip_type != ct := by
      simp [Bool.and_self]
    rw [h1]
    simp
